import Mathlib

/-!
Shallow embedding of the post-management SPA core (storage adapter, data
client with edit overlays and cache TTL, hash router) together with proofs
of the behavioural properties of its specification.

JS strings are modelled as `List Char` where character-level structure
matters (hash parsing / percent-encoding), and as `String` keys elsewhere.
JS objects are modelled as insertion-ordered association lists.
-/

namespace PostApp

/-- JS string viewed as a list of characters. -/
abbrev JStr := List Char

/-- A JS object: insertion-ordered association list from keys to values. -/
abbrev Obj (K : Type) (V : Type) := List (K × V)

/-- Property lookup `o[k]`: first binding for `k` (a well-formed JS object
has at most one). -/
def objGet {K V : Type} [DecidableEq K] : Obj K V → K → Option V
  | [], _ => none
  | (k', v) :: rest, k => if k = k' then some v else objGet rest k

/-- Property assignment `o[k] = v`: replace the existing binding in place,
otherwise append a fresh binding (JS insertion order). -/
def objSet {K V : Type} [DecidableEq K] : Obj K V → K → V → Obj K V
  | [], k, v => [(k, v)]
  | (k', v') :: rest, k, v =>
      if k = k' then (k', v) :: rest else (k', v') :: objSet rest k v

/-- `Object.assign(target, src)`: copy `src`'s own properties onto `target`
in property order. -/
def objAssign {K V : Type} [DecidableEq K] (target src : Obj K V) : Obj K V :=
  src.foldl (fun acc p => objSet acc p.1 p.2) target

/-- The keys of an object, in order. -/
def objKeys {K V : Type} (o : Obj K V) : List K := o.map Prod.fst

/- ### Key-value store adapter (`StorageService` in `src/js/app.js`)

`localStorage` is modelled as an association list from `String` keys to
already-parsed values (JSON serialisation is the identity in the model);
the fault flags say which underlying operations currently raise
(quota exceeded / parse error / store unavailable). -/

/-- Fault injection for the underlying browser storage. -/
structure StorageFaults where
  setThrows : Bool
  getThrows : Bool
  removeThrows : Bool
  clearThrows : Bool

/-- The fault-free storage environment. -/
def noFaults : StorageFaults := ⟨false, false, false, false⟩

/-- Persistent key-value store contents. -/
abbrev Store (V : Type) := Obj String V

/-- Underlying `localStorage.setItem` (plus `JSON.stringify`): raises when
the fault flag is set, in which case the store is untouched. -/
def lsSet {V : Type} (f : StorageFaults) (st : Store V) (k : String) (v : V) :
    Except String (Store V) :=
  if f.setThrows then .error "QuotaExceededError" else .ok (objSet st k v)

/-- Underlying `localStorage.getItem` plus `JSON.parse`: raises when the
fault flag is set. -/
def lsGet {V : Type} (f : StorageFaults) (st : Store V) (k : String) :
    Except String (Option V) :=
  if f.getThrows then .error "SyntaxError" else .ok (objGet st k)

/-- Underlying `localStorage.removeItem`. -/
def lsRemove {V : Type} (f : StorageFaults) (st : Store V) (k : String) :
    Except String (Store V) :=
  if f.removeThrows then .error "SecurityError"
  else .ok (st.filter fun p => !(p.1 == k))

/-- Underlying `localStorage.clear`. -/
def lsClear {V : Type} (f : StorageFaults) (_st : Store V) :
    Except String (Store V) :=
  if f.clearThrows then .error "SecurityError" else .ok []

/-- `StorageService.setItem`: try/catch around the underlying write; a
failure is logged and swallowed, leaving the store as it was. -/
def setItem {V : Type} (f : StorageFaults) (st : Store V) (k : String) (v : V) :
    Except String (Store V) :=
  match lsSet f st k v with
  | .ok st' => .ok st'
  | .error _e => .ok st

/-- `StorageService.getItem`: try/catch around the underlying read; a
failure is logged and `null` is returned. -/
def getItem {V : Type} (f : StorageFaults) (st : Store V) (k : String) :
    Except String (Option V) :=
  match lsGet f st k with
  | .ok v => .ok v
  | .error _e => .ok none

/-- `StorageService.removeItem`: try/catch around the underlying removal. -/
def removeItem {V : Type} (f : StorageFaults) (st : Store V) (k : String) :
    Except String (Store V) :=
  match lsRemove f st k with
  | .ok st' => .ok st'
  | .error _e => .ok st

/-- `StorageService.clear`: try/catch around the underlying clear. -/
def clear {V : Type} (f : StorageFaults) (st : Store V) :
    Except String (Store V) :=
  match lsClear f st with
  | .ok st' => .ok st'
  | .error _e => .ok st

/-- Resulting store of a `setItem` call (total: the call never throws). -/
def setItemS {V : Type} (f : StorageFaults) (st : Store V) (k : String) (v : V) :
    Store V :=
  ((setItem f st k v).toOption).getD st

/-- Value returned by a `getItem` call (total: the call never throws). -/
def getItemS {V : Type} (f : StorageFaults) (st : Store V) (k : String) :
    Option V :=
  ((getItem f st k).toOption).getD none

/-- Resulting store of a `removeItem` call. -/
def removeItemS {V : Type} (f : StorageFaults) (st : Store V) (k : String) :
    Store V :=
  ((removeItem f st k).toOption).getD st

/- ### Posts cache and edit overlays (`StorageService`, `src/js/app.js`)

`cachePosts` / `getCachedPosts` store `{ data, timestamp }` under the key
`posts_cache` with a one-hour TTL; `saveEditedPost` / `getEditedPost` store
`{ data, timestamp }` under `edited_post_<id>`.  Timestamps are
milliseconds (`Date.now()`). -/

/-- A `{ data: ..., timestamp: ... }` wrapper as written by the storage
service. -/
structure Timestamped (α : Type) where
  data : α
  timestamp : Nat
deriving DecidableEq

/-- Storage key of the posts cache snapshot. -/
def POSTS_CACHE_KEY : String := "posts_cache"

/-- One hour in milliseconds (`60 * 60 * 1000`), the cache TTL. -/
def oneHour : Nat := 60 * 60 * 1000

/-- `StorageService.cachePosts(posts)` at current time `now`. -/
def cachePosts {α : Type} (f : StorageFaults) (now : Nat) (posts : α)
    (st : Store (Timestamped α)) : Store (Timestamped α) :=
  setItemS f st POSTS_CACHE_KEY ⟨posts, now⟩

/-- `StorageService.getCachedPosts()` at current time `now`: returns the
cached data (or `null`) together with the store left behind (the snapshot
is deleted when it has expired). -/
def getCachedPosts {α : Type} (f : StorageFaults) (now : Nat)
    (st : Store (Timestamped α)) : Option α × Store (Timestamped α) :=
  match getItemS f st POSTS_CACHE_KEY with
  | none => (none, st)
  | some cache =>
      if now - cache.timestamp > oneHour then
        (none, removeItemS f st POSTS_CACHE_KEY)
      else
        (some cache.data, st)

/-- Storage key of the edit overlay for a post id
(`'edited_post_' + postId`). -/
def editKey (postId : Nat) : String := "edited_post_" ++ toString postId

/-- `StorageService.saveEditedPost(postId, postData)` at current time
`now`. -/
def saveEditedPost {α : Type} (f : StorageFaults) (now : Nat) (postId : Nat)
    (postData : α) (st : Store (Timestamped α)) : Store (Timestamped α) :=
  setItemS f st (editKey postId) ⟨postData, now⟩

/-- `StorageService.getEditedPost(postId)`: the overlay data or `null`. -/
def getEditedPost {α : Type} (f : StorageFaults) (postId : Nat)
    (st : Store (Timestamped α)) : Option α :=
  match getItemS f st (editKey postId) with
  | some editedData => some editedData.data
  | none => none

/- ### Remote data client (`ApiService`, `src/unnamed/part_000`)

The outcome of the simulated remote call is a parameter (`Except`): the
functions below are the promise chains of the source with the `fetch`
result abstracted. -/

/-- `ApiService.updatePost(postId, postData)` given the outcome `remote`
of the PUT request.  Returns the settled value of the promise (`.ok` =
resolved, `.error` = rejected) together with the store after the call. -/
def updatePost {α : Type} (f : StorageFaults) (now : Nat)
    (remote : Except String α) (postId : Nat) (postData : α)
    (st : Store (Timestamped α)) : Except String α × Store (Timestamped α) :=
  match remote with
  | .ok response =>
      -- then-branch: save locally, resolve with the parsed API response
      (.ok response, saveEditedPost f now postId postData st)
  | .error _e =>
      -- catch-branch: even if the API fails, save locally and resolve
      (.ok postData, saveEditedPost f now postId postData st)

/-- `ApiService.getPostWithEdits(postId)` given the post `originalPost`
that `fetchPost` produced: merges the stored overlay (if any) over the
canonical record via `Object.assign({}, originalPost, editedData)`. -/
def getPostWithEdits {V : Type} (f : StorageFaults) (postId : Nat)
    (originalPost : Obj String V) (st : Store (Timestamped (Obj String V))) :
    Obj String V :=
  match getEditedPost f postId st with
  | some editedData => objAssign (objAssign [] originalPost) editedData
  | none => originalPost

/-- `ApiService.retryRequest(requestFn, maxRetries, delay)`.  The source
re-applies the `maxRetries || 3` and `delay || 1000` defaults on every
recursive call, so the function is modelled with explicit fuel: `none`
means the computation did not settle within `fuel` invocations.  A settled
run yields the result, the total number of invocations of `requestFn`, and
the list of back-off delays waited.  `op i` is the outcome of the `i`-th
invocation of `requestFn`. -/
def retryRequest {α : Type} (op : Nat → Except String α) :
    Nat → Nat → Int → Int → Option (Except String α × Nat × List Int)
  | 0, _, _, _ => none
  | fuel + 1, i, maxRetries, delay =>
      let m : Int := if maxRetries = 0 then 3 else maxRetries
      let d : Int := if delay = 0 then 1000 else delay
      match op i with
      | .ok a => some (.ok a, i + 1, [])
      | .error e =>
          if m ≤ 0 then some (.error e, i + 1, [])
          else
            (retryRequest op fuel (i + 1) (m - 1) (d * 2)).map
              fun r => (r.1, r.2.1, d :: r.2.2)


/- ### Percent-encoding (`encodeURIComponent` / `decodeURIComponent`)

The router's query strings go through the platform's
`encodeURIComponent` / `decodeURIComponent` (ECMA-262 `Encode`/`Decode`
over UTF-8 percent-escapes); modelled here over `JStr`. -/

/-- Characters `encodeURIComponent` leaves unescaped:
`A–Z a–z 0–9 - _ . ! ~ * ' ( )`. -/
def uriUnreserved (c : Char) : Bool :=
  c.isAlphanum ||
    c ∈ ['-', '_', '.', '!', '~', '*', Char.ofNat 39, '(', ')']

/-- Uppercase hex digit of `n < 16`. -/
def hexDigit (n : Nat) : Char :=
  (['0', '1', '2', '3', '4', '5', '6', '7', '8', '9',
    'A', 'B', 'C', 'D', 'E', 'F']).getD n '0'

/-- Value of a hex digit character (both cases), if any. -/
def fromHexDigit (c : Char) : Option Nat :=
  if c.isDigit then some (c.toNat - 48)
  else if 'A' ≤ c && c ≤ 'F' then some (c.toNat - 55)
  else if 'a' ≤ c && c ≤ 'f' then some (c.toNat - 87)
  else none

/-- `%XY` escape of the byte `b`. -/
def pctByte (b : Nat) : JStr := ['%', hexDigit (b / 16), hexDigit (b % 16)]

/-- UTF-8 bytes of the code point `n`. -/
def utf8Bytes (n : Nat) : List Nat :=
  if n < 0x80 then [n]
  else if n < 0x800 then [0xC0 + n / 64, 0x80 + n % 64]
  else if n < 0x10000 then
    [0xE0 + n / 4096, 0x80 + n / 64 % 64, 0x80 + n % 64]
  else
    [0xF0 + n / 262144, 0x80 + n / 4096 % 64, 0x80 + n / 64 % 64,
     0x80 + n % 64]

/-- `encodeURIComponent`: unreserved characters pass through, every other
character becomes the `%XY` escapes of its UTF-8 bytes. -/
def encodeURIComponent (s : JStr) : JStr :=
  s.flatMap fun c =>
    if uriUnreserved c then [c] else (utf8Bytes c.toNat).flatMap pctByte

/-- A lexical token of a percent-encoded string: a literal character or a
decoded `%XY` byte. -/
inductive PctTok where
  | ch (c : Char)
  | byte (b : Nat)
deriving DecidableEq

/-- First pass of `decodeURIComponent`: replace each `%XY` escape by its
byte; `none` when a `%` is not followed by two hex digits (URIError). -/
def pctTokens : JStr → Option (List PctTok)
  | [] => some []
  | c :: rest =>
      if c = '%' then
        match rest with
        | h1 :: h2 :: rest' => do
            let a ← fromHexDigit h1
            let b ← fromHexDigit h2
            let ts ← pctTokens rest'
            some (.byte (16 * a + b) :: ts)
        | _ => none
      else do
        let ts ← pctTokens rest
        some (.ch c :: ts)

/-- Is `b` a UTF-8 continuation byte (`10xxxxxx`)? -/
def contByte (b : Nat) : Bool := 0x80 ≤ b && b < 0xC0

mutual

/-- Second pass of `decodeURIComponent`: strict UTF-8 decoding of the byte
tokens; `none` on any invalid sequence (URIError). -/
def utf8DecodeToks : List PctTok → Option JStr
  | [] => some []
  | .ch c :: ts => (utf8DecodeToks ts).map fun s => c :: s
  | .byte b :: ts =>
      if b < 0x80 then (utf8DecodeToks ts).map fun s => Char.ofNat b :: s
      else if b < 0xC0 then none
      else if b < 0xE0 then utf8Tail2 b ts
      else if b < 0xF0 then utf8Tail3 b ts
      else if b < 0xF8 then utf8Tail4 b ts
      else none

/-- Continuation of a two-byte UTF-8 sequence with lead byte `b`. -/
def utf8Tail2 (b : Nat) : List PctTok → Option JStr
  | .byte b1 :: ts' =>
      if contByte b1 then
        let cp := (b - 0xC0) * 64 + (b1 - 0x80)
        if 0x80 ≤ cp then
          (utf8DecodeToks ts').map fun s => Char.ofNat cp :: s
        else none
      else none
  | _ => none

/-- Continuation of a three-byte UTF-8 sequence with lead byte `b`. -/
def utf8Tail3 (b : Nat) : List PctTok → Option JStr
  | .byte b1 :: .byte b2 :: ts' =>
      if contByte b1 && contByte b2 then
        let cp := (b - 0xE0) * 4096 + (b1 - 0x80) * 64 + (b2 - 0x80)
        if 0x800 ≤ cp && !(0xD800 ≤ cp && cp ≤ 0xDFFF) then
          (utf8DecodeToks ts').map fun s => Char.ofNat cp :: s
        else none
      else none
  | _ => none

/-- Continuation of a four-byte UTF-8 sequence with lead byte `b`. -/
def utf8Tail4 (b : Nat) : List PctTok → Option JStr
  | .byte b1 :: .byte b2 :: .byte b3 :: ts' =>
      if contByte b1 && contByte b2 && contByte b3 then
        let cp := (b - 0xF0) * 262144 + (b1 - 0x80) * 4096 +
          (b2 - 0x80) * 64 + (b3 - 0x80)
        if 0x10000 ≤ cp && cp < 0x110000 then
          (utf8DecodeToks ts').map fun s => Char.ofNat cp :: s
        else none
      else none
  | _ => none

end

/-- `decodeURIComponent`: percent-unescape, then strict UTF-8 decode;
`none` models a thrown `URIError`. -/
def decodeURIComponent (s : JStr) : Option JStr := do
  let ts ← pctTokens s
  utf8DecodeToks ts

/- ### Hash parsing and URL generation (`src/js/utils/Router.js`) -/

/-- Query-string parameters: a JS object keyed by decoded strings. -/
abbrev QParams := Obj JStr JStr

/-- One `encodeURIComponent(key) + '=' + encodeURIComponent(value)`
query-string pair. -/
def encPair (p : JStr × JStr) : JStr :=
  encodeURIComponent p.1 ++ '=' :: encodeURIComponent p.2

/-- The `?`-joined query string built by `navigate` / `generateUrl`:
percent-encoded `key=value` pairs joined with `'&'` over the object's keys
in order. -/
def queryString (params : QParams) : JStr :=
  List.intercalate ['&'] (params.map encPair)

/-- `Router.generateUrl(path, params)`: `'#' + path`, plus the query
string when `params` has at least one key. -/
def generateUrl (path : JStr) (params : QParams) : JStr :=
  let url := '#' :: path
  if (objKeys params).length > 0 then url ++ '?' :: queryString params
  else url

/-- The hash `Router.navigate(path, params, replace)` writes to the
location (same construction as `generateUrl`). -/
def navigateHash (path : JStr) (params : QParams) : JStr :=
  let hash := '#' :: path
  if (objKeys params).length > 0 then hash ++ '?' :: queryString params
  else hash

/-- Parsed route information (`{ path, params }`). -/
structure RouteInfo where
  path : JStr
  params : QParams
deriving DecidableEq

/-- Body of the `forEach` over `&`-separated pairs in `parseHash`: keep
the pair only when splitting on `'='` yields exactly two parts, and
percent-decode both (a `URIError` aborts the whole parse). -/
def parsePair (ps : QParams) (param : JStr) : Option QParams :=
  match param.splitOn '=' with
  | [k, v] => do
      let dk ← decodeURIComponent k
      let dv ← decodeURIComponent v
      some (objSet ps dk dv)
  | _ => some ps

/-- `hash.replace(/^#/, '')`: drop one leading `#`. -/
def stripHash : JStr → JStr
  | '#' :: t => t
  | t => t

/-- `Router.parseHash(hash)`: strip one leading `#`; empty hash maps to
the default route; split on `?`; parse `&`-separated `k=v` pairs via
`parsePair`.  `none` models a `URIError` escaping from
`decodeURIComponent`. -/
def parseHash (defaultRoute : JStr) (hash : JStr) : Option RouteInfo :=
  let hash := stripHash hash
  if hash.isEmpty then some ⟨defaultRoute, []⟩
  else
    let parts := hash.splitOn '?'
    let path := match parts.getD 0 [] with
      | [] => defaultRoute
      | p => p
    let qs := parts.getD 1 []
    if qs.isEmpty then some ⟨path, []⟩
    else do
      let params ← (qs.splitOn '&').foldlM parsePair []
      some ⟨path, params⟩

/- ### The router state machine (`src/js/utils/Router.js`)

Route handlers and navigation hooks are opaque callbacks: a handler's
observable behaviour towards the router is only whether it throws, and a
hook's is the value it returns (`false` vetoes) or that it throws.  The
router records every externally visible effect of a transition. -/

/-- A registered route
(`{ handler, requiresAuth, title, params }`); the handler is represented
by whether it throws when invoked. -/
structure RouteDef where
  requiresAuth : Bool
  title : JStr
  handlerThrows : Bool
deriving DecidableEq

/-- The module-level `currentRoute` value. -/
structure CurrentRoute where
  path : JStr
  params : QParams
  route : RouteDef
deriving DecidableEq

/-- Outcome of one pre-navigation callback invocation: returned the
explicit value `false`, returned anything else, or threw. -/
inductive HookRes where
  | retFalse
  | retOther
  | err
deriving DecidableEq

/-- A pre-navigation hook, as a function of
`(currentRoute, routeInfo)`. -/
abbrev BeforeHook := Option CurrentRoute → RouteInfo → HookRes

/-- A post-navigation hook, as a function of
`(currentRoute, previousRoute)`; `true` means it throws. -/
abbrev AfterHook := Option CurrentRoute → Option CurrentRoute → Bool

/-- The router's module-level configuration: registered routes, the
default route, the registered hooks, and the `StorageService.isLoggedIn()`
authentication state consulted during the transition. -/
structure RouterConfig where
  routes : Obj JStr RouteDef
  defaultRoute : JStr
  beforeHooks : List BeforeHook
  afterHooks : List AfterHook
  auth : Bool

/-- Mutable interpreter state: `currentRoute` and `document.title`. -/
structure RouterState where
  currentRoute : Option CurrentRoute
  docTitle : JStr
deriving DecidableEq

/-- Externally visible effects of one `handleRouteChange` call. -/
structure Effects where
  warns : List JStr
  errors : List JStr
  redirects : List (JStr × QParams × Bool)
  handlerCalls : List (JStr × QParams)
  beforeResults : List HookRes
  afterRuns : Nat
deriving DecidableEq

/-- No effects. -/
def noEffects : Effects := ⟨[], [], [], [], [], 0⟩

/-- Log text of `console.error` in a pre-navigation hook. -/
def msgBeforeErr : JStr := "Error in before route change callback:".data

/-- Log text of `console.error` in the route handler. -/
def msgHandlerErr : JStr := "Error executing route handler:".data

/-- Log text of `console.error` in a post-navigation hook. -/
def msgAfterErr : JStr := "Error in after route change callback:".data

/-- `Router.handleRouteChange(routeInfo)`: route lookup, auth gates,
pre-navigation hooks with veto, commit, title update, handler invocation,
post-navigation hooks. -/
def handleRouteChange (cfg : RouterConfig) (st : RouterState)
    (ri : RouteInfo) : RouterState × Effects :=
  match objGet cfg.routes ri.path with
  | none =>
      (st, { noEffects with
        warns := ["Route not found:".data ++ ri.path]
        redirects := [(cfg.defaultRoute, [], true)] })
  | some route =>
      if route.requiresAuth && !cfg.auth then
        (st, { noEffects with
          warns := ["Route requires authentication:".data ++ ri.path]
          redirects := [("login".data, [], true)] })
      else if ri.path = "login".data && cfg.auth then
        (st, { noEffects with redirects := [("posts".data, [], true)] })
      else
        let results := cfg.beforeHooks.map fun cb => cb st.currentRoute ri
        let preErrors := (results.filter fun r => r == HookRes.err).map
          fun _ => msgBeforeErr
        if results.contains HookRes.retFalse then
          (st, { noEffects with
            errors := preErrors
            beforeResults := results })
        else
          let previousRoute := st.currentRoute
          let newCurrent : CurrentRoute := ⟨ri.path, ri.params, route⟩
          let st' : RouterState :=
            ⟨some newCurrent,
             if route.title.isEmpty then st.docTitle
             else route.title ++ " - Post Management".data⟩
          let handlerErrs := if route.handlerThrows then [msgHandlerErr]
            else []
          let afterErrs := cfg.afterHooks.filterMap fun cb =>
            if cb (some newCurrent) previousRoute then some msgAfterErr
            else none
          (st', { warns := []
                  errors := preErrors ++ handlerErrs ++ afterErrs
                  redirects := []
                  handlerCalls := [(ri.path, ri.params)]
                  beforeResults := results
                  afterRuns := cfg.afterHooks.length })

/-- Event-loop driver: run one transition; when it issued a redirect, the
location mutation fires a `hashchange` event whose handler parses the new
hash and re-enters `handleRouteChange`.  `fuel` bounds the redirect
chain. -/
def drive (cfg : RouterConfig) : RouterState → RouteInfo → Nat → RouterState
  | st, _, 0 => st
  | st, ri, fuel + 1 =>
      let (st', effs) := handleRouteChange cfg st ri
      match effs.redirects with
      | [] => st'
      | (p, ps, _) :: _ =>
          match parseHash cfg.defaultRoute (navigateHash p ps) with
          | some ri' => drive cfg st' ri' fuel
          | none => st'

/- ### Application route table (`src/js/app.js`, `setupRoutes`) -/

/-- The four routes registered at startup (handlers do not throw). -/
def appRoutes : Obj JStr RouteDef :=
  [("login".data, ⟨false, "Login".data, false⟩),
   ("posts".data, ⟨true, "Posts".data, false⟩),
   ("detail".data, ⟨true, "Post Detail".data, false⟩),
   ("analytics".data, ⟨true, "Analytics".data, false⟩)]

/-- Token list a single character contributes to its percent-encoding
(proof-side view of `encodeURIComponent`). -/
def tokOf (c : Char) : List PctTok :=
  if uriUnreserved c then [PctTok.ch c]
  else (utf8Bytes c.toNat).map PctTok.byte

/-- A concrete router configuration: application routes, a session
present, one throwing and one benign pre-navigation hook, one throwing
and one benign post-navigation hook. -/
def cfgHooksDemo : RouterConfig :=
  ⟨appRoutes, "login".data,
   [fun _ _ => HookRes.err, fun _ _ => HookRes.retOther],
   [fun _ _ => true, fun _ _ => false], true⟩

/-- A concrete router configuration: application routes, a session
present, no hooks. -/
def cfgSessionDemo : RouterConfig :=
  ⟨appRoutes, "login".data, [], [], true⟩

/-- A concrete router configuration: application routes, no session, no
hooks. -/
def cfgNoSessionDemo : RouterConfig :=
  ⟨appRoutes, "login".data, [], [], false⟩

/-!
## Theorems

Helper lemmas about the association-list object model, percent-encoding
and the router, followed by one theorem per specification claim.
-/

theorem objGet_objSet {K V : Type} [DecidableEq K] (l : Obj K V)
    (k k' : K) (v : V) :
    objGet (objSet l k v) k' = if k' = k then some v else objGet l k' := by
  induction l with
  | nil => by_cases h : k' = k <;> simp [objSet, objGet, h]
  | cons p rest ih =>
      obtain ⟨k0, v0⟩ := p
      by_cases h0 : k = k0
      · subst h0
        by_cases h : k' = k <;> simp [objSet, objGet, h]
      · simp only [objSet, if_neg h0, objGet]
        by_cases h1 : k' = k0
        · subst h1
          have h2 : ¬k' = k := fun hc => h0 (hc ▸ rfl)
          simp [objGet, h2]
        · simp [h1, ih]

theorem objGet_append {K V : Type} [DecidableEq K] (a b : Obj K V) (k : K) :
    objGet (a ++ b) k = ((objGet a k).orElse fun _ => objGet b k) := by
  induction a with
  | nil => simp [objGet]
  | cons p rest ih =>
      obtain ⟨k0, v0⟩ := p
      by_cases h : k = k0 <;> simp [objGet, h, ih]

theorem objGet_eq_none {K V : Type} [DecidableEq K] {l : Obj K V} {k : K}
    (h : k ∉ objKeys l) : objGet l k = none := by
  induction l with
  | nil => rfl
  | cons p rest ih =>
      simp only [objKeys, List.map_cons, List.mem_cons] at h
      push_neg at h
      simp only [objGet, if_neg h.1]
      exact ih h.2

theorem objSet_of_objGet_none {K V : Type} [DecidableEq K] {l : Obj K V}
    {k : K} (v : V) (h : objGet l k = none) :
    objSet l k v = l ++ [(k, v)] := by
  induction l with
  | nil => rfl
  | cons p rest ih =>
      obtain ⟨k0, v0⟩ := p
      simp only [objGet] at h
      by_cases h0 : k = k0
      · simp [h0] at h
      · simp only [if_neg h0] at h
        simp [objSet, h0, ih h]

theorem objAssign_of_fresh {K V : Type} [DecidableEq K] (src : Obj K V) :
    ∀ acc : Obj K V, (∀ k ∈ objKeys src, objGet acc k = none) →
    (objKeys src).Nodup → objAssign acc src = acc ++ src := by
  induction src with
  | nil => intro acc _ _; simp [objAssign]
  | cons p rest ih =>
      intro acc hfresh hnodup
      obtain ⟨k0, v0⟩ := p
      simp only [objKeys, List.map_cons, List.nodup_cons] at hnodup
      have h0 : objGet acc k0 = none := by
        apply hfresh; simp [objKeys]
      have step : objAssign acc ((k0, v0) :: rest) =
          objAssign (acc ++ [(k0, v0)]) rest := by
        simp [objAssign, objSet_of_objGet_none v0 h0]
      rw [step, ih (acc ++ [(k0, v0)])]
      · simp
      · intro k hk
        rw [objGet_append]
        have hne : k ≠ k0 := by
          intro hcontr; exact hnodup.1 (hcontr ▸ hk)
        have : objGet acc k = none := by
          apply hfresh; simp [objKeys] at hk ⊢; exact Or.inr hk
        simp [this, objGet, hne]
      · exact hnodup.2

theorem objAssign_nil_id {K V : Type} [DecidableEq K] (o : Obj K V)
    (h : (objKeys o).Nodup) : objAssign [] o = o := by
  have := objAssign_of_fresh o [] (fun k _ => rfl) h
  simpa using this

theorem objGet_objAssign {K V : Type} [DecidableEq K] (src : Obj K V) :
    ∀ (t : Obj K V) (k : K), (objKeys src).Nodup →
    objGet (objAssign t src) k =
      ((objGet src k).orElse fun _ => objGet t k) := by
  induction src with
  | nil => intro t k _; simp [objAssign, objGet]
  | cons p rest ih =>
      intro t k hnodup
      obtain ⟨k0, v0⟩ := p
      simp only [objKeys, List.map_cons, List.nodup_cons] at hnodup
      have step : objAssign t ((k0, v0) :: rest) =
          objAssign (objSet t k0 v0) rest := by
        simp [objAssign]
      rw [step, ih (objSet t k0 v0) k hnodup.2, objGet_objSet]
      by_cases h : k = k0
      · subst h
        have : objGet rest k = none :=
          objGet_eq_none (by simpa [objKeys] using hnodup.1)
        simp [this, objGet]
      · simp [objGet, h]

theorem setItemS_noFaults {V : Type} (st : Store V) (k : String) (v : V) :
    setItemS noFaults st k v = objSet st k v := rfl

theorem getItemS_noFaults {V : Type} (st : Store V) (k : String) :
    getItemS noFaults st k = objGet st k := rfl

theorem removeItemS_noFaults {V : Type} (st : Store V) (k : String) :
    removeItemS noFaults st k = st.filter fun p => !(p.1 == k) := rfl

theorem objGet_filter_out {V : Type} (st : Store V) (k : String) :
    objGet (st.filter fun p => !(p.1 == k)) k = none := by
  induction st with
  | nil => rfl
  | cons p rest ih =>
      obtain ⟨k0, v0⟩ := p
      by_cases h : k0 = k
      · simp [h, ih]
      · simp only [List.filter_cons]
        have hb : (!(k0 == k)) = true := by simp [h]
        simp only [hb, if_pos rfl]
        have : ¬k = k0 := fun hc => h hc.symm
        simp [objGet, this, ih]

/-- C9: no key-value store operation throws to its caller even when the
underlying store raises (quota exceeded, serialization error, store
unavailable): `set`, `get`, `remove` and `clear` all return normally; a
failing `set` (or `remove`, `clear`) leaves the prior stored state
unchanged, and a failing `get` returns absent (`null`). -/
theorem storage_ops_never_throw {V : Type} (f : StorageFaults)
    (st : Store V) (k : String) (v : V) :
    setItem f st k v = .ok (if f.setThrows then st else objSet st k v) ∧
    getItem f st k = .ok (if f.getThrows then none else objGet st k) ∧
    removeItem f st k =
      .ok (if f.removeThrows then st else st.filter fun p => !(p.1 == k)) ∧
    clear f st = .ok (if f.clearThrows then st else []) := by
  refine ⟨?_, ?_, ?_, ?_⟩ <;>
    simp only [setItem, getItem, removeItem, clear, lsSet, lsGet, lsRemove,
      lsClear] <;>
    cases hs : f.setThrows <;> cases hg : f.getThrows <;>
    cases hr : f.removeThrows <;> cases hc : f.clearThrows <;> simp

/-- C3 counterexample: a snapshot written at `T = 0` and read exactly at
`T + 1 hour` is still served (the code deletes only strictly after the
TTL), contradicting the claim that a read at or after `T + 1 hour`
returns absent. -/
theorem cache_read_at_ttl_counterexample :
    ¬ ((getCachedPosts noFaults 3600000
        (cachePosts noFaults 0 (42 : Nat) [])).1 = none) := by
  intro hc
  have h : (getCachedPosts noFaults 3600000
      (cachePosts noFaults 0 (42 : Nat) [])).1 = some 42 := rfl
  rw [h] at hc
  exact Option.noConfusion hc

/-- C3 (amended): a snapshot written at time `T` with data `D` is returned
unchanged by any read at time `t ≤ T + 1 hour`; a read at any `t` strictly
after `T + 1 hour` returns absent and deletes the snapshot key from the
store (the key is removed, not merely ignored). -/
theorem cache_ttl_amended {α : Type} (T : Nat) (D : α)
    (st : Store (Timestamped α)) (t : Nat) :
    (t ≤ T + oneHour →
      getCachedPosts noFaults t (cachePosts noFaults T D st) =
        (some D, cachePosts noFaults T D st)) ∧
    (t > T + oneHour →
      (getCachedPosts noFaults t (cachePosts noFaults T D st)).1 = none ∧
      objGet (getCachedPosts noFaults t (cachePosts noFaults T D st)).2
        POSTS_CACHE_KEY = none) := by
  have hget : getItemS noFaults (cachePosts noFaults T D st)
      POSTS_CACHE_KEY = some ⟨D, T⟩ := by
    rw [getItemS_noFaults, cachePosts, setItemS_noFaults, objGet_objSet]
    simp
  constructor
  · intro hle
    have hno : ¬ (t - T > oneHour) := by omega
    simp [getCachedPosts, hget, hno]
  · intro hgt
    have hyes : t - T > oneHour := by omega
    constructor
    · simp [getCachedPosts, hget, hyes]
    · simp [getCachedPosts, hget, hyes, removeItemS_noFaults,
        objGet_filter_out]

/-- C3 witness: concrete snapshot `D = [42]` written at `T = 0`; a read at
`t = 3600000` (exactly the TTL) still returns it, a read at `t = 3600001`
returns absent with the key deleted. -/
theorem cache_ttl_amended_witness :
    getCachedPosts noFaults 3600000
        (cachePosts noFaults 0 ([42] : List Nat) []) =
      (some [42], cachePosts noFaults 0 ([42] : List Nat) []) ∧
    (getCachedPosts noFaults 3600001
        (cachePosts noFaults 0 ([42] : List Nat) [])).1 = none :=
  ⟨(cache_ttl_amended 0 [42] [] 3600000).1 (by norm_num [oneHour]),
   ((cache_ttl_amended 0 [42] [] 3600001).2 (by norm_num [oneHour])).1⟩

/-- C4 counterexample: when the simulated remote call succeeds, the update
resolves with the parsed API response, not with the data that was saved —
here the remote answers `7` while `5` was saved, and the promise resolves
with `7`. -/
theorem updatePost_resolved_value_counterexample :
    (updatePost noFaults 0 (Except.ok (7 : Nat)) 1 5 []).1 = Except.ok 7 ∧
    (Except.ok (7 : Nat) : Except String Nat) ≠ Except.ok 5 :=
  ⟨rfl, by simp⟩

/-- C4 (amended): `updatePost` never yields a failed result — whether the
remote call succeeds or fails it persists `data` as the edit overlay, so
that reading the edited post afterwards returns `data` — and it resolves
with `data` when the remote call fails, and with the remote response when
it succeeds. -/
theorem updatePost_amended {α : Type} (f : StorageFaults) (now : Nat)
    (remote : Except String α) (postId : Nat) (data : α)
    (st : Store (Timestamped α)) :
    (∃ v, (updatePost f now remote postId data st).1 = Except.ok v) ∧
    getEditedPost noFaults postId
      (updatePost noFaults now remote postId data st).2 = some data ∧
    ((updatePost f now remote postId data st).1 =
      match remote with
      | .ok r => Except.ok r
      | .error _ => Except.ok data) := by
  have hsave : getEditedPost noFaults postId
      (saveEditedPost noFaults now postId data st) = some data := by
    rw [getEditedPost, saveEditedPost, setItemS_noFaults,
      getItemS_noFaults, objGet_objSet]
    simp
  cases remote with
  | ok r => exact ⟨⟨r, rfl⟩, hsave, rfl⟩
  | error e => exact ⟨⟨data, rfl⟩, hsave, rfl⟩

/-- C2: with an overlay stored for the id, the merged record yields, for
each key, the overlay's value when the key is present in the overlay and
the canonical's value otherwise; with no overlay stored the canonical
record is returned unchanged. -/
theorem getPostWithEdits_merge {V : Type} (postId : Nat)
    (canonical : Obj String V) (st : Store (Timestamped (Obj String V)))
    (overlay : Obj String V) :
    ((objKeys canonical).Nodup → (objKeys overlay).Nodup →
      getEditedPost noFaults postId st = some overlay →
      ∀ k, objGet (getPostWithEdits noFaults postId canonical st) k =
        ((objGet overlay k).orElse fun _ => objGet canonical k)) ∧
    (getEditedPost noFaults postId st = none →
      getPostWithEdits noFaults postId canonical st = canonical) := by
  constructor
  · intro hc ho hst k
    rw [getPostWithEdits, hst, objGet_objAssign overlay _ k ho,
      objAssign_nil_id canonical hc]
  · intro hst
    rw [getPostWithEdits, hst]

/-- C2 witness: canonical `{a:1, b:2}` with overlay `{b:9, c:3}` stored
for id 1: the merged value at `b` is the overlay's. -/
theorem getPostWithEdits_merge_witness :
    objGet (getPostWithEdits noFaults 1 [("a", 1), ("b", 2)]
        [(editKey 1, ⟨[("b", 9), ("c", 3)], 0⟩)]) "b" =
      ((objGet [("b", (9 : Nat)), ("c", 3)] "b").orElse
        fun _ => objGet [("a", 1), ("b", 2)] "b") :=
  (getPostWithEdits_merge 1 [("a", 1), ("b", 2)]
      [(editKey 1, ⟨[("b", 9), ("c", 3)], 0⟩)] [("b", 9), ("c", 3)]).1
    (by decide) (by decide) rfl "b"

/-- C7: with any always-failing operation and any non-negative
`maxRetries`, `retryRequest` never settles, however much fuel it is given:
the recursive call re-applies the `maxRetries || 3` default, so the
give-up branch is unreachable and the operation is retried forever
instead of the failure being propagated after `maxAttempts`. -/
theorem retryRequest_never_settles {α : Type} (op : Nat → Except String α)
    (hfail : ∀ i, ∃ e, op i = Except.error e) :
    ∀ (fuel i : Nat) (maxRetries delay : Int), 0 ≤ maxRetries →
      retryRequest op fuel i maxRetries delay = none := by
  intro fuel
  induction fuel with
  | zero => intro i maxRetries delay _; rfl
  | succ n ih =>
      intro i maxRetries delay hnn
      obtain ⟨e, he⟩ := hfail i
      have hm : ¬ ((if maxRetries = 0 then (3 : Int) else maxRetries) ≤ 0) := by
        by_cases h0 : maxRetries = 0 <;> simp [h0] <;> omega
      simp only [retryRequest, he]
      rw [if_neg hm]
      rw [ih (i + 1) _ _ (by by_cases h0 : maxRetries = 0 <;> simp [h0] <;> omega)]
      rfl

/-- C7 witness: a request that always fails with HTTP 500, at the default
`maxRetries = 3`, `delay = 1000`, does not settle within 5 invocations. -/
theorem retryRequest_never_settles_witness :
    retryRequest (fun _ => Except.error "HTTP 500") 5 0 3 1000 =
      (none : Option (Except String Nat × Nat × List Int)) :=
  retryRequest_never_settles _ (fun _ => ⟨"HTTP 500", rfl⟩) 5 0 3 1000
    (by norm_num)

/-- C1: a transition whose route requires authentication while no session
exists stops with a replace-redirect to `login`; a transition to `login`
while a session exists stops with a replace-redirect to `posts`.  In both
cases the state (Current Route, title) is unchanged and no handler is
invoked (`noEffects` carries an empty `handlerCalls` list). -/
theorem auth_gate_redirects (cfg : RouterConfig) (st : RouterState)
    (ri : RouteInfo) (route : RouteDef)
    (hroute : objGet cfg.routes ri.path = some route) :
    (route.requiresAuth = true → cfg.auth = false →
      handleRouteChange cfg st ri =
        (st, { noEffects with
          warns := ["Route requires authentication:".data ++ ri.path]
          redirects := [("login".data, [], true)] })) ∧
    (ri.path = "login".data → cfg.auth = true →
      handleRouteChange cfg st ri =
        (st, { noEffects with redirects := [("posts".data, [], true)] })) := by
  constructor
  · intro hra hauth
    simp [handleRouteChange, hroute, hra, hauth]
  · intro hpath hauth
    simp only [handleRouteChange, hroute]
    simp [hpath, hauth]

/-- C1 witness: with the application route table, visiting `posts` without
a session redirects (replace) to `login`; visiting `login` with a session
redirects (replace) to `posts`. -/
theorem auth_gate_redirects_witness :
    handleRouteChange ⟨appRoutes, "login".data, [], [], false⟩ ⟨none, []⟩
        ⟨"posts".data, []⟩ =
      (⟨none, []⟩, { noEffects with
        warns := ["Route requires authentication:".data ++ "posts".data]
        redirects := [("login".data, [], true)] }) ∧
    handleRouteChange ⟨appRoutes, "login".data, [], [], true⟩ ⟨none, []⟩
        ⟨"login".data, []⟩ =
      (⟨none, []⟩, { noEffects with
        redirects := [("posts".data, [], true)] }) :=
  ⟨(auth_gate_redirects ⟨appRoutes, "login".data, [], [], false⟩ ⟨none, []⟩
      ⟨"posts".data, []⟩ ⟨true, "Posts".data, false⟩ (by decide)).1 rfl rfl,
   (auth_gate_redirects ⟨appRoutes, "login".data, [], [], true⟩ ⟨none, []⟩
      ⟨"login".data, []⟩ ⟨false, "Login".data, false⟩ (by decide)).2 rfl rfl⟩

/-- C5: when some pre-navigation hook returns the explicit value `false`
(and the auth gates pass so that the hooks run at all), the transition is
cancelled after every pre-navigation hook has run: the state (Current
Route, document title) is unchanged, no handler is invoked, and no
post-navigation hook runs; the recorded hook results cover all registered
hooks. -/
theorem before_hook_veto_cancels (cfg : RouterConfig) (st : RouterState)
    (ri : RouteInfo) (route : RouteDef)
    (hroute : objGet cfg.routes ri.path = some route)
    (hg1 : (route.requiresAuth && !cfg.auth) = false)
    (hg2 : (decide (ri.path = "login".data) && cfg.auth) = false)
    (hveto : (cfg.beforeHooks.map fun cb => cb st.currentRoute ri).contains
      HookRes.retFalse = true) :
    handleRouteChange cfg st ri =
      (st, { noEffects with
        errors := ((cfg.beforeHooks.map fun cb => cb st.currentRoute
          ri).filter fun r => r == HookRes.err).map fun _ => msgBeforeErr
        beforeResults := cfg.beforeHooks.map fun cb =>
          cb st.currentRoute ri }) ∧
    (handleRouteChange cfg st ri).2.beforeResults.length =
      cfg.beforeHooks.length := by
  have hmain : handleRouteChange cfg st ri =
      (st, { noEffects with
        errors := ((cfg.beforeHooks.map fun cb => cb st.currentRoute
          ri).filter fun r => r == HookRes.err).map fun _ => msgBeforeErr
        beforeResults := cfg.beforeHooks.map fun cb =>
          cb st.currentRoute ri }) := by
    simp only [handleRouteChange, hroute]
    rw [hg1, hg2, hveto]
    simp
  exact ⟨hmain, by rw [hmain]; simp⟩

/-- C5 witness: a single hook that returns `false` cancels a transition to
`posts` with a session present: state unchanged, no handler call, no
post-navigation hook run. -/
theorem before_hook_veto_cancels_witness :
    handleRouteChange
        ⟨appRoutes, "login".data, [fun _ _ => HookRes.retFalse], [], true⟩
        ⟨none, []⟩ ⟨"posts".data, []⟩ =
      (⟨none, []⟩, { noEffects with
        errors := []
        beforeResults := [HookRes.retFalse] }) ∧
    (handleRouteChange
        ⟨appRoutes, "login".data, [fun _ _ => HookRes.retFalse], [], true⟩
        ⟨none, []⟩ ⟨"posts".data, []⟩).2.beforeResults.length =
      ([fun _ _ => HookRes.retFalse] :
        List BeforeHook).length := by
  have h := before_hook_veto_cancels
    ⟨appRoutes, "login".data, [fun _ _ => HookRes.retFalse], [], true⟩
    ⟨none, []⟩ ⟨"posts".data, []⟩ ⟨true, "Posts".data, false⟩
    (by decide) (by decide) (by decide) rfl
  exact h

theorem filterMap_const_if {γ : Type} (l : List γ) (g : γ → Bool) (c : JStr) :
    (l.filterMap fun x => if g x then some c else none) =
      (l.filter g).map fun _ => c := by
  induction l with
  | nil => rfl
  | cons x rest ih =>
      by_cases h : g x <;> simp [List.filterMap_cons, List.filter_cons, h, ih]

theorem count_map_const {γ : Type} (l : List γ) (c : JStr) :
    ((l.map fun _ => c).count c) = l.length := by
  induction l with
  | nil => rfl
  | cons x rest ih => simp [List.count_cons, ih]

theorem count_map_const_ne {γ : Type} (l : List γ) (c c' : JStr)
    (h : c' ≠ c) : ((l.map fun _ => c).count c') = 0 := by
  rw [List.count_eq_zero]
  intro hmem
  obtain ⟨x, _, hx⟩ := List.mem_map.mp hmem
  exact h hx.symm

/-- C8: when every auth gate passes and no pre-navigation hook vetoes, a
transition commits even when hooks throw: every pre-navigation hook runs
and each thrown error is logged (one log entry per erring hook) while the
transition continues; every post-navigation hook runs and each thrown
error is logged individually without stopping the remaining hooks. -/
theorem hook_errors_fail_open (cfg : RouterConfig) (st : RouterState)
    (ri : RouteInfo) (route : RouteDef)
    (hroute : objGet cfg.routes ri.path = some route)
    (hg1 : (route.requiresAuth && !cfg.auth) = false)
    (hg2 : (decide (ri.path = "login".data) && cfg.auth) = false)
    (hnoveto : (cfg.beforeHooks.map fun cb => cb st.currentRoute ri).contains
      HookRes.retFalse = false) :
    (handleRouteChange cfg st ri).1.currentRoute =
      some ⟨ri.path, ri.params, route⟩ ∧
    (handleRouteChange cfg st ri).2.beforeResults =
      cfg.beforeHooks.map (fun cb => cb st.currentRoute ri) ∧
    (handleRouteChange cfg st ri).2.errors.count msgBeforeErr =
      ((cfg.beforeHooks.map fun cb => cb st.currentRoute ri).filter
        fun r => r == HookRes.err).length ∧
    (handleRouteChange cfg st ri).2.afterRuns = cfg.afterHooks.length ∧
    (handleRouteChange cfg st ri).2.errors.count msgAfterErr =
      (cfg.afterHooks.filter fun cb =>
        cb (some ⟨ri.path, ri.params, route⟩) st.currentRoute).length := by
  have hmain : handleRouteChange cfg st ri =
      (⟨some ⟨ri.path, ri.params, route⟩,
        if route.title.isEmpty then st.docTitle
        else route.title ++ " - Post Management".data⟩,
       ⟨[],
        (((cfg.beforeHooks.map fun cb => cb st.currentRoute ri).filter
          fun r => r == HookRes.err).map fun _ => msgBeforeErr) ++
          (if route.handlerThrows then [msgHandlerErr] else []) ++
          (cfg.afterHooks.filterMap fun cb =>
            if cb (some ⟨ri.path, ri.params, route⟩) st.currentRoute then
              some msgAfterErr
            else none),
        [], [(ri.path, ri.params)],
        cfg.beforeHooks.map fun cb => cb st.currentRoute ri,
        cfg.afterHooks.length⟩) := by
    simp only [handleRouteChange, hroute]
    rw [hg1, hg2, hnoveto]
    simp
  have hb_ne_h : msgBeforeErr ≠ msgHandlerErr := by decide
  have hb_ne_a : msgBeforeErr ≠ msgAfterErr := by decide
  have ha_ne_h : msgAfterErr ≠ msgHandlerErr := by decide
  refine ⟨by rw [hmain], by rw [hmain], ?_, by rw [hmain], ?_⟩
  · rw [hmain]
    simp only [List.count_append, filterMap_const_if]
    rw [count_map_const]
    have h2 : (List.count msgBeforeErr
        (if route.handlerThrows then [msgHandlerErr] else [])) = 0 := by
      by_cases h : route.handlerThrows <;>
        simp [h, List.count_cons, hb_ne_h]
    have h3 := count_map_const_ne
      (cfg.afterHooks.filter fun cb =>
        cb (some ⟨ri.path, ri.params, route⟩) st.currentRoute)
      msgAfterErr msgBeforeErr hb_ne_a
    rw [h2, h3]
    simp
  · rw [hmain]
    simp only [List.count_append, filterMap_const_if]
    have h1 := count_map_const_ne
      ((cfg.beforeHooks.map fun cb => cb st.currentRoute ri).filter
        fun r => r == HookRes.err)
      msgBeforeErr msgAfterErr (fun h => hb_ne_a h.symm)
    have h2 : (List.count msgAfterErr
        (if route.handlerThrows then [msgHandlerErr] else [])) = 0 := by
      by_cases h : route.handlerThrows <;>
        simp [h, List.count_cons, ha_ne_h]
    rw [h1, h2, count_map_const]
    simp

/-- C8 witness: with a session, navigating to `posts` under one throwing
and one benign pre-navigation hook commits the transition, records both
hook results, logs the one pre-hook error, runs both post-navigation
hooks and logs the one post-hook error. -/
theorem hook_errors_fail_open_witness :
    (handleRouteChange cfgHooksDemo ⟨none, []⟩
        ⟨"posts".data, []⟩).1.currentRoute =
      some ⟨"posts".data, [], ⟨true, "Posts".data, false⟩⟩ ∧
    (handleRouteChange cfgHooksDemo ⟨none, []⟩
        ⟨"posts".data, []⟩).2.beforeResults =
      [HookRes.err, HookRes.retOther] ∧
    (handleRouteChange cfgHooksDemo ⟨none, []⟩
        ⟨"posts".data, []⟩).2.errors.count msgBeforeErr = 1 ∧
    (handleRouteChange cfgHooksDemo ⟨none, []⟩
        ⟨"posts".data, []⟩).2.afterRuns = 2 ∧
    (handleRouteChange cfgHooksDemo ⟨none, []⟩
        ⟨"posts".data, []⟩).2.errors.count msgAfterErr = 1 := by
  have h := hook_errors_fail_open cfgHooksDemo ⟨none, []⟩
    ⟨"posts".data, []⟩ ⟨true, "Posts".data, false⟩
    (by decide) (by decide) (by decide) rfl
  exact h

/-- C6 counterexample: the fragment `#bogus` parses to the unregistered
path `bogus`; with a session present, processing the change redirects to
the default route `login`, whose login-with-session rule immediately
forwards to `posts` — so the Current Route ends up as `posts`, not the
default route `login`. -/
theorem unknown_route_with_session_counterexample :
    parseHash "login".data "#bogus".data = some ⟨"bogus".data, []⟩ ∧
    objGet cfgSessionDemo.routes "bogus".data = none ∧
    ((drive cfgSessionDemo ⟨none, []⟩ ⟨"bogus".data, []⟩
        3).currentRoute.map CurrentRoute.path) = some "posts".data ∧
    some "posts".data ≠ some "login".data := by
  refine ⟨by decide, by decide, by decide, by decide⟩

theorem contains_retFalse_eq_false {l : List HookRes}
    (h : HookRes.retFalse ∉ l) : l.contains HookRes.retFalse = false := by
  induction l with
  | nil => rfl
  | cons x rest ih =>
      simp only [List.mem_cons] at h
      push_neg at h
      have hx : (HookRes.retFalse == x) = false := by
        cases x <;> simp_all
      simp only [List.contains_cons, hx, ih h.2, Bool.or_self]

/-- C6 (amended): processing a parsed fragment whose path is not a
registered route logs a warning, issues a replace-redirect to the default
route, invokes no handler, leaves the state unchanged and throws no error;
following the redirect with no session present (and no vetoing
pre-navigation hook) makes the Current Route the default route `login`.
(With a session present the redirect chain continues to `posts` — see the
counterexample.) -/
theorem unknown_route_amended (cfg : RouterConfig) (st : RouterState)
    (ri : RouteInfo) (loginRoute : RouteDef)
    (hmiss : objGet cfg.routes ri.path = none)
    (hdef : cfg.defaultRoute = "login".data)
    (hlogin : objGet cfg.routes "login".data = some loginRoute)
    (hreq : loginRoute.requiresAuth = false)
    (hauth : cfg.auth = false)
    (hhooks : ∀ cb ∈ cfg.beforeHooks, ∀ cr r, cb cr r ≠ HookRes.retFalse) :
    handleRouteChange cfg st ri =
      (st, { noEffects with
        warns := ["Route not found:".data ++ ri.path]
        redirects := [(cfg.defaultRoute, [], true)] }) ∧
    (drive cfg st ri 2).currentRoute = some ⟨"login".data, [], loginRoute⟩ := by
  have hstep : handleRouteChange cfg st ri =
      (st, { noEffects with
        warns := ["Route not found:".data ++ ri.path]
        redirects := [(cfg.defaultRoute, [], true)] }) := by
    simp [handleRouteChange, hmiss]
  refine ⟨hstep, ?_⟩
  have hparse : parseHash cfg.defaultRoute
      (navigateHash cfg.defaultRoute []) = some ⟨"login".data, []⟩ := by
    rw [hdef]; decide
  have hnoveto : (cfg.beforeHooks.map fun cb =>
      cb st.currentRoute ⟨"login".data, []⟩).contains
      HookRes.retFalse = false := by
    apply contains_retFalse_eq_false
    intro hmem
    obtain ⟨cb, hcb, hres⟩ := List.mem_map.mp hmem
    exact hhooks cb hcb st.currentRoute ⟨"login".data, []⟩ hres
  have hlogin2 : handleRouteChange cfg st ⟨"login".data, []⟩ =
      (⟨some ⟨"login".data, [], loginRoute⟩,
        if loginRoute.title.isEmpty then st.docTitle
        else loginRoute.title ++ " - Post Management".data⟩,
       ⟨[],
        (((cfg.beforeHooks.map fun cb =>
          cb st.currentRoute ⟨"login".data, []⟩).filter
            fun r => r == HookRes.err).map fun _ => msgBeforeErr) ++
          (if loginRoute.handlerThrows then [msgHandlerErr] else []) ++
          (cfg.afterHooks.filterMap fun cb =>
            if cb (some ⟨"login".data, [], loginRoute⟩) st.currentRoute then
              some msgAfterErr
            else none),
        [], [("login".data, [])],
        cfg.beforeHooks.map fun cb => cb st.currentRoute ⟨"login".data, []⟩,
        cfg.afterHooks.length⟩) := by
    simp only [handleRouteChange, hlogin]
    rw [hreq, hauth, hnoveto]
    simp
  show (drive cfg st ri 2).currentRoute = _
  rw [drive, hstep]
  simp only [hparse]
  rw [drive, hlogin2]

/-- C6 witness: with no session, processing the unregistered path `nope`
warns, replace-redirects to the default route, and following the redirect
makes `login` the Current Route. -/
theorem unknown_route_amended_witness :
    handleRouteChange cfgNoSessionDemo ⟨none, []⟩ ⟨"nope".data, []⟩ =
      (⟨none, []⟩, { noEffects with
        warns := ["Route not found:".data ++ "nope".data]
        redirects := [(cfgNoSessionDemo.defaultRoute, [], true)] }) ∧
    (drive cfgNoSessionDemo ⟨none, []⟩ ⟨"nope".data, []⟩ 2).currentRoute =
      some ⟨"login".data, [], ⟨false, "Login".data, false⟩⟩ :=
  unknown_route_amended cfgNoSessionDemo ⟨none, []⟩ ⟨"nope".data, []⟩
    ⟨false, "Login".data, false⟩ (by decide) rfl (by decide) rfl rfl
    (fun cb h => absurd h (List.not_mem_nil cb))

theorem fromHexDigit_hexDigit : ∀ n : Nat, n < 16 →
    fromHexDigit (hexDigit n) = some n := by decide

theorem uriUnreserved_ne_pct {c : Char} (h : uriUnreserved c = true) :
    ¬ c = '%' := by
  intro hc
  rw [hc] at h
  exact absurd h (by decide)

theorem pctTokens_cons_ne {c : Char} (rest : JStr) (hc : ¬ c = '%') :
    pctTokens (c :: rest) =
      (pctTokens rest).map fun ts => PctTok.ch c :: ts := by
  rw [pctTokens.eq_def]
  simp only [if_neg hc]
  cases pctTokens rest <;> rfl

theorem pctTokens_pctByte (b : Nat) (rest : JStr) (hb : b < 256) :
    pctTokens (pctByte b ++ rest) =
      (pctTokens rest).map fun ts => PctTok.byte b :: ts := by
  have h1 : b / 16 < 16 := by omega
  have h2 : b % 16 < 16 := by omega
  show pctTokens ('%' :: hexDigit (b / 16) :: hexDigit (b % 16) :: rest) = _
  rw [pctTokens.eq_def]
  simp only [if_pos rfl, fromHexDigit_hexDigit _ h1,
    fromHexDigit_hexDigit _ h2, Option.bind_eq_bind, Option.some_bind]
  have hb' : 16 * (b / 16) + b % 16 = b := by omega
  rw [hb']
  cases pctTokens rest <;> rfl

theorem pctTokens_bytes (bs : List Nat) (rest : JStr)
    (hbs : ∀ b ∈ bs, b < 256) :
    pctTokens (bs.flatMap pctByte ++ rest) =
      (pctTokens rest).map fun ts => bs.map PctTok.byte ++ ts := by
  induction bs with
  | nil =>
      simp only [List.flatMap_nil, List.nil_append, List.map_nil]
      cases pctTokens rest <;> rfl
  | cons b bs' ih =>
      have hb : b < 256 := hbs b (List.mem_cons_self b bs')
      have hbs' : ∀ x ∈ bs', x < 256 := fun x hx =>
        hbs x (List.mem_cons_of_mem b hx)
      simp only [List.flatMap_cons, List.append_assoc,
        pctTokens_pctByte b _ hb, ih hbs', List.map_cons]
      cases pctTokens rest <;> rfl

theorem char_toNat_lt (c : Char) : c.toNat < 0x110000 := by
  have h := c.valid
  rcases h with h | h
  · have h2 : c.val.toNat < (0xd800 : UInt32).toNat := UInt32.lt_def.mp h
    simp only [Char.toNat]
    omega
  · have h2 : c.val.toNat < (0x110000 : UInt32).toNat :=
      UInt32.lt_def.mp h.2
    simp only [Char.toNat]
    omega

theorem char_not_surrogate (c : Char) :
    ¬ (0xD800 ≤ c.toNat ∧ c.toNat ≤ 0xDFFF) := by
  have h := c.valid
  rcases h with h | h
  · have h2 : c.val.toNat < (0xd800 : UInt32).toNat := UInt32.lt_def.mp h
    simp only [Char.toNat]
    omega
  · have h2 : (0xdfff : UInt32).toNat < c.val.toNat := UInt32.lt_def.mp h.1
    simp only [Char.toNat]
    omega

theorem utf8Bytes_lt256 {n : Nat} (hn : n < 0x110000) :
    ∀ b ∈ utf8Bytes n, b < 256 := by
  intro b hb
  simp only [utf8Bytes] at hb
  split at hb <;> try simp_all
  · omega
  · split at hb <;> try simp_all
    · omega
    · split at hb <;> simp_all <;> omega

theorem utf8DecodeToks_ch (c : Char) (ts : List PctTok) :
    utf8DecodeToks (.ch c :: ts) =
      (utf8DecodeToks ts).map fun s => c :: s := by
  rw [utf8DecodeToks.eq_def]

theorem utf8Decode_one (n : Nat) (ts : List PctTok) (h : n < 0x80) :
    utf8DecodeToks (.byte n :: ts) =
      (utf8DecodeToks ts).map fun s => Char.ofNat n :: s := by
  rw [utf8DecodeToks.eq_def]
  simp only [if_pos h]

theorem utf8Decode_two (n : Nat) (ts : List PctTok) (hlo : 0x80 ≤ n)
    (hhi : n < 0x800) :
    utf8DecodeToks (.byte (0xC0 + n / 64) :: .byte (0x80 + n % 64) :: ts) =
      (utf8DecodeToks ts).map fun s => Char.ofNat n :: s := by
  rw [utf8DecodeToks.eq_def]
  have h1 : ¬ (0xC0 + n / 64 < 0x80) := by omega
  have h2 : ¬ (0xC0 + n / 64 < 0xC0) := by omega
  have h3 : 0xC0 + n / 64 < 0xE0 := by omega
  have hcont : contByte (0x80 + n % 64) = true := by
    simp only [contByte, Bool.and_eq_true, decide_eq_true_eq]
    omega
  simp only [if_neg h1, if_neg h2, if_pos h3]
  simp only [utf8Tail2, hcont, if_true]
  have hcp : (0xC0 + n / 64 - 0xC0) * 64 + (0x80 + n % 64 - 0x80) = n := by
    omega
  rw [hcp]
  simp only [if_pos hlo]

theorem utf8Decode_three (n : Nat) (ts : List PctTok) (hlo : 0x800 ≤ n)
    (hhi : n < 0x10000) (hsur : n < 0xD800 ∨ 0xDFFF < n) :
    utf8DecodeToks (.byte (0xE0 + n / 4096) :: .byte (0x80 + n / 64 % 64) ::
        .byte (0x80 + n % 64) :: ts) =
      (utf8DecodeToks ts).map fun s => Char.ofNat n :: s := by
  rw [utf8DecodeToks.eq_def]
  have h1 : ¬ (0xE0 + n / 4096 < 0x80) := by omega
  have h2 : ¬ (0xE0 + n / 4096 < 0xC0) := by omega
  have h3 : ¬ (0xE0 + n / 4096 < 0xE0) := by omega
  have h4 : 0xE0 + n / 4096 < 0xF0 := by omega
  have hcont : (contByte (0x80 + n / 64 % 64) &&
      contByte (0x80 + n % 64)) = true := by
    simp only [contByte, Bool.and_eq_true, decide_eq_true_eq]
    omega
  simp only [if_neg h1, if_neg h2, if_neg h3, if_pos h4]
  simp only [utf8Tail3, hcont, if_true]
  have hcp : (0xE0 + n / 4096 - 0xE0) * 4096 +
      (0x80 + n / 64 % 64 - 0x80) * 64 + (0x80 + n % 64 - 0x80) = n := by
    omega
  rw [hcp]
  have hval : (decide (0x800 ≤ n) &&
      !(decide (0xD800 ≤ n) && decide (n ≤ 0xDFFF))) = true := by
    simp only [Bool.and_eq_true, decide_eq_true_eq, Bool.not_eq_true',
      Bool.and_eq_false_iff, decide_eq_false_iff_not]
    omega
  simp only [hval, if_true]

theorem utf8Decode_four (n : Nat) (ts : List PctTok) (hlo : 0x10000 ≤ n)
    (hhi : n < 0x110000) :
    utf8DecodeToks (.byte (0xF0 + n / 262144) ::
        .byte (0x80 + n / 4096 % 64) :: .byte (0x80 + n / 64 % 64) ::
        .byte (0x80 + n % 64) :: ts) =
      (utf8DecodeToks ts).map fun s => Char.ofNat n :: s := by
  rw [utf8DecodeToks.eq_def]
  have h1 : ¬ (0xF0 + n / 262144 < 0x80) := by omega
  have h2 : ¬ (0xF0 + n / 262144 < 0xC0) := by omega
  have h3 : ¬ (0xF0 + n / 262144 < 0xE0) := by omega
  have h4 : ¬ (0xF0 + n / 262144 < 0xF0) := by omega
  have h5 : 0xF0 + n / 262144 < 0xF8 := by omega
  have hcont : (contByte (0x80 + n / 4096 % 64) &&
      contByte (0x80 + n / 64 % 64) && contByte (0x80 + n % 64)) =
      true := by
    simp only [contByte, Bool.and_eq_true, decide_eq_true_eq]
    omega
  simp only [if_neg h1, if_neg h2, if_neg h3, if_neg h4, if_pos h5]
  simp only [utf8Tail4, hcont, if_true]
  have hcp : (0xF0 + n / 262144 - 0xF0) * 262144 +
      (0x80 + n / 4096 % 64 - 0x80) * 4096 +
      (0x80 + n / 64 % 64 - 0x80) * 64 + (0x80 + n % 64 - 0x80) = n := by
    omega
  rw [hcp]
  have hval : (decide (0x10000 ≤ n) && decide (n < 0x110000)) = true := by
    simp only [Bool.and_eq_true, decide_eq_true_eq]
    omega
  simp only [hval, if_true]

theorem utf8DecodeToks_tokOf (c : Char) (ts : List PctTok) :
    utf8DecodeToks (tokOf c ++ ts) =
      (utf8DecodeToks ts).map fun s => c :: s := by
  by_cases hu : uriUnreserved c
  · simp only [tokOf, if_pos hu, List.cons_append, List.nil_append,
      utf8DecodeToks_ch]
  · simp only [tokOf, if_neg hu]
    have hvalid := char_toNat_lt c
    have hsur := char_not_surrogate c
    by_cases h1 : c.toNat < 0x80
    · simp only [utf8Bytes, if_pos h1, List.map_cons, List.map_nil,
        List.cons_append, List.nil_append]
      rw [utf8Decode_one c.toNat ts h1, Char.ofNat_toNat]
    · by_cases h2 : c.toNat < 0x800
      · simp only [utf8Bytes, if_neg h1, if_pos h2, List.map_cons,
          List.map_nil, List.cons_append, List.nil_append]
        rw [utf8Decode_two c.toNat ts (by omega) h2, Char.ofNat_toNat]
      · by_cases h3 : c.toNat < 0x10000
        · simp only [utf8Bytes, if_neg h1, if_neg h2, if_pos h3,
            List.map_cons, List.map_nil, List.cons_append, List.nil_append]
          rw [utf8Decode_three c.toNat ts (by omega) h3 (by omega),
            Char.ofNat_toNat]
        · simp only [utf8Bytes, if_neg h1, if_neg h2, if_neg h3,
            List.map_cons, List.map_nil, List.cons_append, List.nil_append]
          rw [utf8Decode_four c.toNat ts (by omega) hvalid,
            Char.ofNat_toNat]

theorem utf8DecodeToks_flatMap (s : JStr) (ts : List PctTok) :
    utf8DecodeToks (s.flatMap tokOf ++ ts) =
      (utf8DecodeToks ts).map fun t => s ++ t := by
  induction s with
  | nil =>
      simp only [List.flatMap_nil, List.nil_append]
      cases utf8DecodeToks ts <;> rfl
  | cons c s' ih =>
      simp only [List.flatMap_cons, List.append_assoc,
        utf8DecodeToks_tokOf, ih]
      cases utf8DecodeToks ts <;> rfl

theorem pctTokens_encode (s : JStr) :
    pctTokens (encodeURIComponent s) = some (s.flatMap tokOf) := by
  induction s with
  | nil => rfl
  | cons c s' ih =>
      simp only [encodeURIComponent, List.flatMap_cons] at ih ⊢
      by_cases hu : uriUnreserved c
      · simp only [if_pos hu, List.cons_append, List.nil_append]
        rw [pctTokens_cons_ne _ (uriUnreserved_ne_pct hu), ih]
        simp [tokOf, hu]
      · simp only [if_neg hu]
        rw [pctTokens_bytes _ _ (utf8Bytes_lt256 (char_toNat_lt c)), ih]
        simp [tokOf, hu]

theorem decodeURIComponent_encode (s : JStr) :
    decodeURIComponent (encodeURIComponent s) = some s := by
  simp only [decodeURIComponent, pctTokens_encode, Option.bind_eq_bind,
    Option.some_bind]
  have h := utf8DecodeToks_flatMap s []
  rw [show utf8DecodeToks [] = some [] from rfl] at h
  simpa using h

theorem hexDigit_mem_table (m : Nat) :
    hexDigit m ∈ ['0', '1', '2', '3', '4', '5', '6', '7', '8', '9',
      'A', 'B', 'C', 'D', 'E', 'F'] := by
  by_cases h : m < 16
  · rw [hexDigit, List.getD_eq_getElem _ _ (by simpa using h)]
    exact List.getElem_mem _
  · rw [hexDigit, List.getD_eq_default _ _ (by simpa using Nat.le_of_not_lt h)]
    decide

theorem hexDigit_ne_sep (m : Nat) :
    hexDigit m ≠ '&' ∧ hexDigit m ≠ '=' ∧ hexDigit m ≠ '?' := by
  have h := hexDigit_mem_table m
  exact (by decide : ∀ y ∈ ['0', '1', '2', '3', '4', '5', '6', '7', '8',
    '9', 'A', 'B', 'C', 'D', 'E', 'F'],
    y ≠ '&' ∧ y ≠ '=' ∧ y ≠ '?') _ h

theorem mem_encode_safe {x : Char} {s : JStr}
    (hx : x ∈ encodeURIComponent s) : x ≠ '&' ∧ x ≠ '=' ∧ x ≠ '?' := by
  simp only [encodeURIComponent, List.mem_flatMap] at hx
  obtain ⟨c, _, hc⟩ := hx
  by_cases hu : uriUnreserved c
  · simp only [if_pos hu, List.mem_singleton] at hc
    subst hc
    refine ⟨?_, ?_, ?_⟩ <;> intro hbad <;> rw [hbad] at hu <;>
      exact absurd hu (by decide)
  · simp only [if_neg hu, List.mem_flatMap] at hc
    obtain ⟨b, _, hb⟩ := hc
    simp only [pctByte, List.mem_cons, List.not_mem_nil, or_false] at hb
    rcases hb with h | h | h
    · subst h; exact ⟨by decide, by decide, by decide⟩
    · subst h; exact hexDigit_ne_sep _
    · subst h; exact hexDigit_ne_sep _

theorem mem_encPair_safe {x : Char} {p : JStr × JStr}
    (hx : x ∈ encPair p) : x ≠ '&' ∧ x ≠ '?' := by
  simp only [encPair, List.mem_append, List.mem_cons] at hx
  rcases hx with h | h | h
  · exact ⟨(mem_encode_safe h).1, (mem_encode_safe h).2.2⟩
  · subst h; exact ⟨by decide, by decide⟩
  · exact ⟨(mem_encode_safe h).1, (mem_encode_safe h).2.2⟩

theorem encPair_splitOn_eq (p : JStr × JStr) :
    (encPair p).splitOn '=' =
      [encodeURIComponent p.1, encodeURIComponent p.2] := by
  have ha : ∀ y ∈ encodeURIComponent p.1, ¬ (y == '=') = true := by
    intro y hy
    simpa using (mem_encode_safe hy).2.1
  have hb : ∀ y ∈ encodeURIComponent p.2, ¬ (y == '=') = true := by
    intro y hy
    simpa using (mem_encode_safe hy).2.1
  show (encodeURIComponent p.1 ++ '=' :: encodeURIComponent p.2).splitOn
      '=' = _
  rw [List.splitOn, List.splitOnP_first _ _ ha '=' (by simp)
    (encodeURIComponent p.2), List.splitOnP_eq_single _ _ hb]

theorem parsePair_encPair (ps : QParams) (p : JStr × JStr) :
    parsePair ps (encPair p) = some (objSet ps p.1 p.2) := by
  rw [parsePair, encPair_splitOn_eq]
  simp [decodeURIComponent_encode]

theorem foldlM_parsePair (l : QParams) :
    ∀ acc : QParams, ((l.map encPair).foldlM parsePair acc) =
      some (l.foldl (fun a q => objSet a q.1 q.2) acc) := by
  induction l with
  | nil => intro acc; rfl
  | cons p l' ih =>
      intro acc
      simp only [List.map_cons, List.foldlM_cons, parsePair_encPair,
        List.foldl_cons, Option.bind_eq_bind, Option.some_bind]
      exact ih (objSet acc p.1 p.2)

theorem mem_intersperse {α : Type} (sep : α) :
    ∀ (l : List α) (x : α), x ∈ l.intersperse sep → x = sep ∨ x ∈ l := by
  intro l
  induction l with
  | nil => intro x h; simp [List.intersperse] at h
  | cons b tl ih =>
      intro x h
      cases tl with
      | nil =>
          simp only [List.intersperse_singleton, List.mem_singleton] at h
          exact Or.inr (by simp [h])
      | cons c tl' =>
          rw [List.intersperse_cons_cons] at h
          simp only [List.mem_cons] at h
          rcases h with h | h | h
          · exact Or.inr (by simp [h])
          · exact Or.inl h
          · rcases ih x (by simpa using h) with h' | h'
            · exact Or.inl h'
            · exact Or.inr (List.mem_cons_of_mem _ h')

theorem mem_queryString {x : Char} {params : QParams}
    (hx : x ∈ queryString params) :
    x = '&' ∨ ∃ p ∈ params, x ∈ encPair p := by
  simp only [queryString, List.intercalate, List.mem_flatten] at hx
  obtain ⟨l, hl, hxl⟩ := hx
  rcases mem_intersperse _ _ l hl with h | h
  · subst h
    simp only [List.mem_singleton] at hxl
    exact Or.inl hxl
  · obtain ⟨p, hp, hpe⟩ := List.mem_map.mp h
    exact Or.inr ⟨p, hp, hpe ▸ hxl⟩

theorem queryString_no_qmark {params : QParams} :
    ∀ x ∈ queryString params, ¬ (x == '?') = true := by
  intro x hx
  rcases mem_queryString hx with h | ⟨p, _, hp⟩
  · subst h; decide
  · simpa using (mem_encPair_safe hp).2

theorem queryString_splitOn_amp (params : QParams) (h : params ≠ []) :
    (queryString params).splitOn '&' = params.map encPair := by
  rw [queryString]
  apply List.splitOn_intercalate
  · intro l hl
    obtain ⟨p, _, hpe⟩ := List.mem_map.mp hl
    intro hmem
    exact (mem_encPair_safe (hpe ▸ hmem)).1 rfl
  · simpa using h

theorem queryString_ne_nil (params : QParams) (h : params ≠ []) :
    queryString params ≠ [] := by
  intro hq
  have hs := queryString_splitOn_amp params h
  rw [hq] at hs
  rw [List.splitOn_nil] at hs
  cases params with
  | nil => exact h rfl
  | cons p l =>
      simp only [List.map_cons] at hs
      have : ([] : JStr) = encPair p := by
        have := congrArg (fun l => l.headD []) hs
        simpa using this
      have h2 : encPair p ≠ [] := by
        simp [encPair]
      exact h2 this.symm

/-- C10: for every non-empty path free of `#` and `?` and every
finite string-to-string parameter mapping, parsing the fragment produced
by `generateUrl(path, params)` yields exactly `{path, params}`: every
key/value pair survives percent-encoding and decoding, and no extra or
malformed pairs appear. -/
theorem generateUrl_parseHash_roundtrip (d path : JStr) (params : QParams)
    (hpath : path ≠ []) (_hhash : '#' ∉ path) (hq : '?' ∉ path)
    (hkeys : (objKeys params).Nodup) :
    parseHash d (generateUrl path params) = some ⟨path, params⟩ := by
  obtain ⟨c, path', rfl⟩ : ∃ c p', path = c :: p' := by
    cases path with
    | nil => exact absurd rfl hpath
    | cons c p' => exact ⟨c, p', rfl⟩
  have hpathq : ∀ x ∈ c :: path', ¬ (x == '?') = true := by
    intro x hx
    simp only [beq_iff_eq]
    intro he
    exact hq (he ▸ hx)
  cases params with
  | nil =>
      simp only [generateUrl, objKeys, List.map_nil, List.length_nil,
        gt_iff_lt, Nat.lt_irrefl, if_false]
      simp only [parseHash, stripHash]
      simp only [List.isEmpty_cons, Bool.false_eq_true, if_false]
      have hsplit : (c :: path').splitOn '?' = [c :: path'] := by
        rw [List.splitOn]
        exact List.splitOnP_eq_single _ _ hpathq
      rw [hsplit]
      rfl
  | cons q qs' =>
      have hne : (q :: qs' : QParams) ≠ [] := by simp
      have hcond : (objKeys (q :: qs' : QParams)).length > 0 := by
        simp [objKeys]
      simp only [generateUrl, if_pos hcond, List.cons_append]
      simp only [parseHash, stripHash]
      simp only [List.isEmpty_cons, Bool.false_eq_true, if_false]
      have hsplit : ((c :: path') ++ '?' :: queryString (q :: qs')).splitOn
          '?' = [c :: path', queryString (q :: qs')] := by
        rw [List.splitOn,
          List.splitOnP_first _ _ hpathq '?' (by simp) _,
          List.splitOnP_eq_single _ _ queryString_no_qmark]
      rw [List.cons_append] at hsplit
      rw [hsplit]
      have hQne := queryString_ne_nil (q :: qs') hne
      have hQempty : (queryString (q :: qs')).isEmpty = false := by
        cases hqq : queryString (q :: qs') with
        | nil => exact absurd hqq hQne
        | cons a b => rfl
      simp only [List.getD, List.get?_cons_zero, List.get?_cons_succ,
        List.get?_nil, Option.getD_some, hQempty, Bool.false_eq_true,
        if_false]
      rw [queryString_splitOn_amp _ hne, foldlM_parsePair]
      have hfold : (q :: qs' : QParams).foldl
          (fun a p => objSet a p.1 p.2) [] = (q :: qs' : QParams) :=
        objAssign_nil_id _ hkeys
      simp only [Option.bind_eq_bind, Option.some_bind, hfold]

/-- C10 witness: the pair list `q ↦ a&b`, `x y ↦ 1=2` survives the
round trip through `generateUrl` and `parseHash` for the path `user`. -/
theorem generateUrl_parseHash_roundtrip_witness :
    parseHash "login".data (generateUrl "user".data
        [("q".data, "a&b".data), ("x y".data, "1=2".data)]) =
      some ⟨"user".data,
        [("q".data, "a&b".data), ("x y".data, "1=2".data)]⟩ :=
  generateUrl_parseHash_roundtrip "login".data "user".data
    [("q".data, "a&b".data), ("x y".data, "1=2".data)]
    (by decide) (by decide) (by decide) (by decide)

end PostApp
